import Mathlib

/-!
Verification development for the seerrsync repository.

The repository is a user-synchronisation tool: it harvests user identities
from configured media servers (sources), merges them into a canonical
unified view, diffs that view against the request-management instance
(target directory) and applies a safe set of create/delete operations.
The Python engine (`sync_users.py`, `api.py`) is not shipped in the
source snapshot, so the engine components (Identity Merger,
Reconciliation Planner, Sync Orchestrator) are modelled from the
specification; the frontend code (Dashboard component, AddUserModal
permission editor, api.js cache layer) is embedded from the JavaScript
source directly.

Usernames are plain strings; case-insensitive identity is realised with
an executable ASCII lower-casing function `lower`.
-/

namespace Seerrsync

/-- Executable lower-casing of a string, character by character; models
the lower-casing that the specification prescribes for canonical
username keys. -/
def lower (s : String) : String := ⟨s.data.map Char.toLower⟩

/-- Modelled from the spec: `RawSourceUser` record produced by a Source
Adapter (§3).  `email` is the optional display email, with the empty
string standing for a missing value. -/
structure RawSourceUser where
  source_server_id : String
  source_type : String
  username : String
  email : String
  native_id : String
  deriving DecidableEq, Repr

/-- Modelled from the spec: `UnifiedUser`, the canonical merged identity
(§3): `username` is the lower-cased key, `display_username` the
first-seen casing, `email` the first non-empty email and the two lists
accumulate contributing server ids / types. -/
structure UnifiedUser where
  username : String
  display_username : String
  email : String
  source_servers : List String
  source_types : List String
  deriving DecidableEq, Repr

/-- Modelled from the spec: per-username `PolicyOverride` (§3) with the
documented defaults blocked = false, immune = false. -/
structure PolicyOverride where
  blocked : Bool := false
  immune : Bool := false
  request_limit : Option Nat := none
  password_suffix : Option String := none
  deriving DecidableEq, Repr

/-- Modelled from the spec: `TargetAccount`, the current state of one
account of the target directory (§3). -/
structure TargetAccount where
  username : String
  native_id : String
  deriving DecidableEq, Repr

/-- Modelled from the spec: `SourceFailure` (§3), one entry per source
whose fetch failed this pass. -/
structure SourceFailure where
  server_id : String
  error : String
  deriving DecidableEq, Repr

/-- Modelled from the spec: `SyncPlan` (§3), the purely derived output
of the Reconciliation Planner. -/
structure SyncPlan where
  to_create : List UnifiedUser
  to_delete : List TargetAccount
  skipped_blocked : List String
  skipped_immune : List String
  unchanged : List String
  deriving DecidableEq, Repr

/-- Modelled from the spec: the Policy Store (§6), an association from
usernames to overrides. -/
def PolicyStore := List (String × PolicyOverride)

/-- Modelled from the spec: `PolicyStore.get(username)` with defaults
blocked = false, immune = false (§6). -/
def PolicyStore.get (ps : PolicyStore) (username : String) : PolicyOverride :=
  match ps.find? (fun kv => kv.1 == username) with
  | some kv => kv.2
  | none => {}

/-- A string is blank when every character is whitespace; the empty
string is blank.  Models the "empty/whitespace email" test of §4.1. -/
def isBlank (s : String) : Bool := s.data.all Char.isWhitespace

/-- First-occurrence deduplication: keeps the first occurrence of every
element, in order of first appearance. -/
def dedupFirst (l : List String) : List String :=
  l.foldr (fun x acc => x :: acc.filter (fun y => y != x)) []

theorem dedupFirst_cons (x : String) (xs : List String) :
    dedupFirst (x :: xs) = x :: (dedupFirst xs).filter (fun y => y != x) := rfl

theorem mem_dedupFirst (a : String) (l : List String) :
    a ∈ dedupFirst l ↔ a ∈ l := by
  induction l with
  | nil => simp [dedupFirst]
  | cons x xs ih =>
    rw [dedupFirst_cons]
    simp only [List.mem_cons, List.mem_filter, bne_iff_ne, decide_eq_true_eq, ih]
    constructor
    · rintro (rfl | ⟨h, -⟩)
      · exact Or.inl rfl
      · exact Or.inr h
    · rintro (rfl | h)
      · exact Or.inl rfl
      · by_cases hx : a = x
        · exact Or.inl hx
        · exact Or.inr ⟨h, hx⟩

theorem nodup_dedupFirst (l : List String) : (dedupFirst l).Nodup := by
  induction l with
  | nil => simp [dedupFirst]
  | cons x xs ih =>
    rw [dedupFirst_cons]
    refine List.Nodup.cons ?_ (ih.filter _)
    intro hmem
    rcases List.mem_filter.mp hmem with ⟨-, hne⟩
    simp at hne

/-- `find?` over a filtered list searches the original list with both
predicates. -/
theorem find?_filter_fuse (l : List RawSourceUser) (p q : RawSourceUser → Bool) :
    (l.filter q).find? p = l.find? (fun r => q r && p r) := by
  induction l with
  | nil => rfl
  | cons x xs ih =>
    by_cases hq : q x
    · by_cases hp : p x
      · simp [List.filter_cons, hq, List.find?_cons, hp]
      · simp [List.filter_cons, hq, List.find?_cons, hp, ih]
    · simp [List.filter_cons, hq, List.find?_cons, ih]

/-- Modelled from the spec: the flattening of the per-source record map
into a single record list in the fixed source iteration order (§4.1). -/
def recordsOf (raw_by_source : List (String × List RawSourceUser)) :
    List RawSourceUser :=
  (raw_by_source.map Prod.snd).flatten

/-- Modelled from the spec: field-merge policy of the Identity Merger
(§4.1) applied to the group of records sharing one canonical key:
display form is the first-seen casing, email the first non-blank value,
server ids and types accumulate without duplicates. -/
def buildUser (k : String) (group : List RawSourceUser) : UnifiedUser :=
  { username := k
    display_username :=
      match group.head? with
      | some r => r.username
      | none => ""
    email :=
      match group.find? (fun r => !(isBlank r.email)) with
      | some r => r.email
      | none => ""
    source_servers := dedupFirst (group.map (fun r => r.source_server_id))
    source_types := dedupFirst (group.map (fun r => r.source_type)) }

/-- Modelled from the spec: the Identity Merger contract `merge` (§4.1).
Records are grouped by lower-cased username; one UnifiedUser is built
per distinct key, keys ordered by first appearance. -/
def merge (raw_by_source : List (String × List RawSourceUser)) : List UnifiedUser :=
  let records := recordsOf raw_by_source
  (dedupFirst (records.map (fun r => lower r.username))).map
    (fun k => buildUser k (records.filter (fun r => lower r.username == k)))

theorem merge_usernames (raw_by_source : List (String × List RawSourceUser)) :
    (merge raw_by_source).map (fun u => u.username) =
      dedupFirst ((recordsOf raw_by_source).map (fun r => lower r.username)) := by
  unfold merge
  rw [List.map_map]
  exact List.map_id _

/-- Membership in the merge output, characterised: the users are exactly
the `buildUser` images of the distinct canonical keys. -/
theorem mem_merge_iff (raw_by_source : List (String × List RawSourceUser))
    (u : UnifiedUser) :
    u ∈ merge raw_by_source ↔
      (∃ r ∈ recordsOf raw_by_source, lower r.username = u.username) ∧
        u = buildUser u.username
          ((recordsOf raw_by_source).filter (fun r => lower r.username == u.username)) := by
  unfold merge
  simp only [List.mem_map, mem_dedupFirst]
  constructor
  · rintro ⟨k, hk, rfl⟩
    have hu : (buildUser k ((recordsOf raw_by_source).filter (fun r => lower r.username == k))).username = k := rfl
    rw [hu]
    exact ⟨hk, rfl⟩
  · rintro ⟨⟨r, hr, hrk⟩, hu⟩
    exact ⟨u.username, ⟨r, hr, hrk⟩, hu.symm⟩

end Seerrsync

namespace Seerrsync

/-- Modelled from the spec: the Reconciliation Planner contract `plan`
(§4.2).  Matching is case-insensitive on both sides, blocked users are
skipped instead of created, immune accounts are retained instead of
deleted, and a non-empty `source_failures` forces `to_delete` empty for
the whole pass (whole-pass fail-safe). -/
def plan (unified : List UnifiedUser) (target_accounts : List TargetAccount)
    (policy : PolicyStore) (source_failures : List SourceFailure)
    (remove_missing : Bool) : SyncPlan :=
  let targetKeys := target_accounts.map (fun a => lower a.username)
  let unifiedKeys := unified.map (fun u => lower u.username)
  let missing := unified.filter (fun u => !(targetKeys.contains (lower u.username)))
  let to_create := missing.filter (fun u => !(policy.get (lower u.username)).blocked)
  let skipped_blocked :=
    (missing.filter (fun u => (policy.get (lower u.username)).blocked)).map
      (fun u => u.username)
  let present := target_accounts.filter (fun a => unifiedKeys.contains (lower a.username))
  let absent := target_accounts.filter (fun a => !(unifiedKeys.contains (lower a.username)))
  let deleteGate := remove_missing && source_failures.isEmpty
  let to_delete :=
    if deleteGate then absent.filter (fun a => !(policy.get (lower a.username)).immune)
    else []
  let skipped_immune :=
    if deleteGate then
      (absent.filter (fun a => (policy.get (lower a.username)).immune)).map
        (fun a => a.username)
    else []
  { to_create := to_create
    to_delete := to_delete
    skipped_blocked := skipped_blocked
    skipped_immune := skipped_immune
    unchanged := present.map (fun a => a.username) }

/-- Membership in the create set of a plan, characterised. -/
theorem mem_to_create_iff (unified : List UnifiedUser)
    (target_accounts : List TargetAccount) (policy : PolicyStore)
    (source_failures : List SourceFailure) (remove_missing : Bool)
    (u : UnifiedUser) :
    u ∈ (plan unified target_accounts policy source_failures remove_missing).to_create ↔
      u ∈ unified ∧
        ¬ lower u.username ∈ target_accounts.map (fun a => lower a.username) ∧
        (policy.get (lower u.username)).blocked = false := by
  unfold plan
  simp [List.mem_filter, List.contains, List.elem_iff]
  tauto

/-- Membership in the skipped-blocked bucket of a plan, characterised. -/
theorem mem_skipped_blocked_iff (unified : List UnifiedUser)
    (target_accounts : List TargetAccount) (policy : PolicyStore)
    (source_failures : List SourceFailure) (remove_missing : Bool)
    (n : String) :
    n ∈ (plan unified target_accounts policy source_failures remove_missing).skipped_blocked ↔
      ∃ u ∈ unified, u.username = n ∧
        ¬ lower u.username ∈ target_accounts.map (fun a => lower a.username) ∧
        (policy.get (lower u.username)).blocked = true := by
  unfold plan
  simp [List.mem_filter, List.contains, List.elem_iff]
  constructor
  · rintro ⟨u, ⟨hu, hb, habs⟩, rfl⟩
    exact ⟨u, hu, rfl, habs, hb⟩
  · rintro ⟨u, hu, rfl, habs, hb⟩
    exact ⟨u, ⟨hu, hb, habs⟩, rfl⟩

/-- Membership in the delete set of a plan, characterised. -/
theorem mem_to_delete_iff (unified : List UnifiedUser)
    (target_accounts : List TargetAccount) (policy : PolicyStore)
    (source_failures : List SourceFailure) (remove_missing : Bool)
    (a : TargetAccount) :
    a ∈ (plan unified target_accounts policy source_failures remove_missing).to_delete ↔
      remove_missing = true ∧ source_failures = [] ∧ a ∈ target_accounts ∧
        ¬ lower a.username ∈ unified.map (fun u => lower u.username) ∧
        (policy.get (lower a.username)).immune = false := by
  unfold plan
  by_cases hg : remove_missing = true ∧ source_failures = []
  · simp [hg.1, hg.2, List.mem_filter, List.contains, List.elem_iff]
    tauto
  · have hgate : (remove_missing && source_failures.isEmpty) = false := by
      cases remove_missing with
      | false => rfl
      | true =>
        cases source_failures with
        | nil => exact absurd ⟨rfl, rfl⟩ hg
        | cons x l => rfl
    simp only [plan, hgate, Bool.false_eq_true, if_false, List.not_mem_nil, false_iff]
    rintro ⟨hrm, hfs, -⟩
    exact hg ⟨hrm, hfs⟩

/-- Membership in the skipped-immune (retained) bucket of a plan,
characterised. -/
theorem mem_skipped_immune_iff (unified : List UnifiedUser)
    (target_accounts : List TargetAccount) (policy : PolicyStore)
    (source_failures : List SourceFailure) (remove_missing : Bool)
    (n : String) :
    n ∈ (plan unified target_accounts policy source_failures remove_missing).skipped_immune ↔
      remove_missing = true ∧ source_failures = [] ∧
        ∃ a ∈ target_accounts, a.username = n ∧
          ¬ lower a.username ∈ unified.map (fun u => lower u.username) ∧
          (policy.get (lower a.username)).immune = true := by
  unfold plan
  by_cases hg : remove_missing = true ∧ source_failures = []
  · simp only [hg.1, hg.2, List.isEmpty_nil, Bool.and_self, if_pos, List.mem_map,
      List.mem_filter, List.contains, List.elem_iff, true_and]
    constructor
    · rintro ⟨a, ⟨⟨ha, habs⟩, himm⟩, rfl⟩
      refine ⟨a, ha, rfl, ?_, himm⟩
      simpa using habs
    · rintro ⟨a, ha, rfl, habs, himm⟩
      refine ⟨a, ⟨⟨ha, ?_⟩, himm⟩, rfl⟩
      simpa using habs
  · have hgate : (remove_missing && source_failures.isEmpty) = false := by
      cases remove_missing with
      | false => rfl
      | true =>
        cases source_failures with
        | nil => exact absurd ⟨rfl, rfl⟩ hg
        | cons x l => rfl
    simp only [plan, hgate, Bool.false_eq_true, if_false, List.not_mem_nil, false_iff]
    rintro ⟨hrm, hfs, -⟩
    exact hg ⟨hrm, hfs⟩

/-- Modelled from the spec: one create or delete call dispatched to the
Target Directory Adapter (§6). -/
inductive Mutation where
  | create (u : UnifiedUser)
  | delete (a : TargetAccount)
  deriving DecidableEq, Repr

/-- Modelled from the spec: the target account resulting from
`create_account` on a unified user (§6); the account carries the
canonical username. -/
def createdAccount (u : UnifiedUser) : TargetAccount :=
  { username := u.username, native_id := "" }

/-- Modelled from the spec: effect of executing a plan against the
target directory (§4.3): `to_create` is applied, then `to_delete`. -/
def applyPlan (target : List TargetAccount) (p : SyncPlan) : List TargetAccount :=
  (target ++ p.to_create.map createdAccount).filter (fun a => !(p.to_delete.contains a))

/-- Modelled from the spec: the adapter outcomes one pass observes — a
per-source listing result for each enabled source, and the target
directory listing result (§4.3, §6). -/
structure PassEnv where
  sources : List (String × Except String (List RawSourceUser))
  target_listing : Except String (List TargetAccount)

/-- Modelled from the spec: a successful pass reports the computed plan,
the mutations dispatched, and the per-source failures (§4.3). -/
structure PassResult where
  syncPlan : SyncPlan
  mutations : List Mutation
  source_failures : List SourceFailure
  deriving DecidableEq, Repr

/-- Modelled from the spec: the sources that fetched successfully, each
with its records, in the fixed iteration order (§4.3). -/
def okSources (sources : List (String × Except String (List RawSourceUser))) :
    List (String × List RawSourceUser) :=
  sources.filterMap (fun p =>
    match p.2 with
    | .ok rs => some (p.1, rs)
    | .error _ => none)

/-- Modelled from the spec: per-source failures of a pass, one entry per
source whose fetch erred (§4.3). -/
def failuresOf (sources : List (String × Except String (List RawSourceUser))) :
    List SourceFailure :=
  sources.filterMap (fun p =>
    match p.2 with
    | .error e => some ⟨p.1, e⟩
    | .ok _ => none)

/-- Modelled from the spec: the Sync Orchestrator contract `run_pass`
(§4.3).  A failed target listing aborts the pass before any mutation;
otherwise source failures are isolated, the Merger and Planner run, and
the plan's creations then deletions are dispatched. -/
def run_pass (env : PassEnv) (policy : PolicyStore) (remove_missing : Bool) :
    Except String PassResult :=
  match env.target_listing with
  | .error e => .error e
  | .ok target =>
    let unified := merge (okSources env.sources)
    let failures := failuresOf env.sources
    let pl := plan unified target policy failures remove_missing
    .ok { syncPlan := pl
          mutations := pl.to_create.map Mutation.create ++ pl.to_delete.map Mutation.delete
          source_failures := failures }

/-- The mutations a pass dispatched: none when the pass failed. -/
def mutationsOf (r : Except String PassResult) : List Mutation :=
  match r with
  | .ok res => res.mutations
  | .error _ => []

end Seerrsync

namespace Seerrsync

/-- C1: whenever `source_failures` is non-empty, the plan has an empty
`to_delete`, whatever `remove_missing` and the other inputs are
(whole-pass fail-safe). -/
theorem plan_failsafe_no_delete (unified : List UnifiedUser)
    (target_accounts : List TargetAccount) (policy : PolicyStore)
    (source_failures : List SourceFailure) (remove_missing : Bool)
    (h : source_failures ≠ []) :
    (plan unified target_accounts policy source_failures remove_missing).to_delete = [] := by
  rw [List.eq_nil_iff_forall_not_mem]
  intro a ha
  rw [mem_to_delete_iff] at ha
  exact h ha.2.1

/-- Closed witness for C1 at a concrete input. -/
theorem plan_failsafe_no_delete_witness :
    (plan [] [⟨"alice", "1"⟩] [] [⟨"plex", "down"⟩] true).to_delete = [] :=
  plan_failsafe_no_delete [] [⟨"alice", "1"⟩] [] [⟨"plex", "down"⟩] true (by decide)

/-- C2: with `remove_missing = true` and no source failures, a target
account whose canonical (lower-cased) username is absent from the
unified set but whose policy override is immune never appears in
`to_delete`; its username goes to the retained `skipped_immune`
bucket instead. -/
theorem plan_immune_never_deleted (unified : List UnifiedUser)
    (target_accounts : List TargetAccount) (policy : PolicyStore)
    (a : TargetAccount) (ha : a ∈ target_accounts)
    (habsent : ¬ lower a.username ∈ unified.map (fun u => lower u.username))
    (himm : (policy.get (lower a.username)).immune = true) :
    a ∉ (plan unified target_accounts policy [] true).to_delete ∧
      a.username ∈ (plan unified target_accounts policy [] true).skipped_immune := by
  constructor
  · rw [mem_to_delete_iff]
    rintro ⟨-, -, -, -, hfalse⟩
    rw [himm] at hfalse
    cases hfalse
  · rw [mem_skipped_immune_iff]
    exact ⟨rfl, rfl, a, ha, rfl, habsent, himm⟩

/-- Closed witness for C2 at a concrete input. -/
theorem plan_immune_never_deleted_witness :
    ⟨"Bob", "7"⟩ ∉ (plan [] [⟨"Bob", "7"⟩] [("bob", ⟨false, true, none, none⟩)] [] true).to_delete ∧
      "Bob" ∈ (plan [] [⟨"Bob", "7"⟩] [("bob", ⟨false, true, none, none⟩)] [] true).skipped_immune :=
  plan_immune_never_deleted [] [⟨"Bob", "7"⟩] [("bob", ⟨false, true, none, none⟩)]
    ⟨"Bob", "7"⟩ (by decide) (by decide) (by decide)

/-- C3: blocked unified users are never created: `to_create` is exactly
the unified users with no case-insensitive match among the target
accounts and not blocked per policy, and a blocked user with no match
is recorded in `skipped_blocked`. -/
theorem plan_blocked_never_created (unified : List UnifiedUser)
    (target_accounts : List TargetAccount) (policy : PolicyStore)
    (source_failures : List SourceFailure) (remove_missing : Bool) :
    (∀ u : UnifiedUser,
      (u ∈ (plan unified target_accounts policy source_failures remove_missing).to_create ↔
        u ∈ unified ∧
          ¬ lower u.username ∈ target_accounts.map (fun a => lower a.username) ∧
          (policy.get (lower u.username)).blocked = false)) ∧
    (∀ u ∈ unified, (policy.get (lower u.username)).blocked = true →
      u ∉ (plan unified target_accounts policy source_failures remove_missing).to_create ∧
        (¬ lower u.username ∈ target_accounts.map (fun a => lower a.username) →
          u.username ∈ (plan unified target_accounts policy source_failures remove_missing).skipped_blocked)) := by
  refine ⟨fun u => mem_to_create_iff _ _ _ _ _ u, fun u hu hb => ⟨?_, fun habs => ?_⟩⟩
  · rw [mem_to_create_iff]
    rintro ⟨-, -, hfalse⟩
    rw [hb] at hfalse
    cases hfalse
  · rw [mem_skipped_blocked_iff]
    exact ⟨u, hu, rfl, habs, hb⟩

/-- Closed witness for C3 at a concrete input. -/
theorem plan_blocked_never_created_witness :
    (⟨"bob", "Bob", "", [], []⟩ : UnifiedUser) ∉
        (plan [⟨"bob", "Bob", "", [], []⟩] [] [("bob", ⟨true, false, none, none⟩)] [] true).to_create ∧
      "bob" ∈ (plan [⟨"bob", "Bob", "", [], []⟩] [] [("bob", ⟨true, false, none, none⟩)] [] true).skipped_blocked := by
  have h := (plan_blocked_never_created [⟨"bob", "Bob", "", [], []⟩] [] [("bob", ⟨true, false, none, none⟩)] [] true).2
    ⟨"bob", "Bob", "", [], []⟩ (by decide) (by decide)
  exact ⟨h.1, h.2 (by decide)⟩

/-- C4: the merge output has exactly one UnifiedUser per distinct
lower-cased username of the input (no duplicate keys, no key dropped),
and each user's display form is the casing of the first record seen for
that key in the fixed source iteration order. -/
theorem merge_one_user_per_key (raw_by_source : List (String × List RawSourceUser)) :
    ((merge raw_by_source).map (fun u => u.username)).Nodup ∧
    (∀ k, (∃ u ∈ merge raw_by_source, u.username = k) ↔
      ∃ r ∈ recordsOf raw_by_source, lower r.username = k) ∧
    (∀ u ∈ merge raw_by_source,
      ∃ r, (recordsOf raw_by_source).find? (fun r => lower r.username == u.username) = some r ∧
        u.display_username = r.username) := by
  refine ⟨?_, ?_, ?_⟩
  · rw [merge_usernames]
    exact nodup_dedupFirst _
  · intro k
    constructor
    · rintro ⟨u, hu, rfl⟩
      exact ((mem_merge_iff raw_by_source u).mp hu).1
    · rintro ⟨r, hr, hrk⟩
      refine ⟨buildUser k ((recordsOf raw_by_source).filter (fun r => lower r.username == k)), ?_, rfl⟩
      rw [mem_merge_iff]
      exact ⟨⟨r, hr, hrk⟩, rfl⟩
  · intro u hu
    obtain ⟨⟨r, hr, hrk⟩, hbuild⟩ := (mem_merge_iff raw_by_source u).mp hu
    have hsome : ((recordsOf raw_by_source).find? (fun r => lower r.username == u.username)).isSome := by
      rw [List.find?_isSome]
      exact ⟨r, hr, by simp [hrk]⟩
    obtain ⟨r0, hfind⟩ := Option.isSome_iff_exists.mp hsome
    refine ⟨r0, hfind, ?_⟩
    conv_lhs => rw [hbuild]
    show (match ((recordsOf raw_by_source).filter (fun r => lower r.username == u.username)).head? with
      | some r => r.username
      | none => "") = r0.username
    rw [List.filter_head?, hfind]

/-- Closed witness for C4 at a concrete input (both casings of alice
arrive; display form is the first). -/
theorem merge_one_user_per_key_witness :
    ∃ r, (recordsOf [("plex", [⟨"plex", "plex", "Alice", "a@x.com", "1"⟩]),
        ("j1", [⟨"j1", "jellyfin", "alice", "", "2"⟩])]).find?
        (fun r => lower r.username == (buildUser "alice"
          [⟨"plex", "plex", "Alice", "a@x.com", "1"⟩, ⟨"j1", "jellyfin", "alice", "", "2"⟩]).username) = some r ∧
      (buildUser "alice"
        [⟨"plex", "plex", "Alice", "a@x.com", "1"⟩, ⟨"j1", "jellyfin", "alice", "", "2"⟩]).display_username = r.username :=
  (merge_one_user_per_key [("plex", [⟨"plex", "plex", "Alice", "a@x.com", "1"⟩]),
      ("j1", [⟨"j1", "jellyfin", "alice", "", "2"⟩])]).2.2
    (buildUser "alice" [⟨"plex", "plex", "Alice", "a@x.com", "1"⟩, ⟨"j1", "jellyfin", "alice", "", "2"⟩])
    (by decide)

/-- C5: each merged user's email is the first non-blank email among the
records of that key in iteration order (later non-empty values never
overwrite it), and a key all of whose records carry a blank email still
yields a UnifiedUser, with empty email, rather than being dropped. -/
theorem merge_email_first_nonblank (raw_by_source : List (String × List RawSourceUser)) :
    (∀ u ∈ merge raw_by_source,
      u.email = (match (recordsOf raw_by_source).find?
          (fun r => lower r.username == u.username && !(isBlank r.email)) with
        | some r => r.email
        | none => "")) ∧
    (∀ k, (∃ r ∈ recordsOf raw_by_source, lower r.username = k) →
      (∀ r ∈ recordsOf raw_by_source, lower r.username = k → isBlank r.email = true) →
      ∃ u ∈ merge raw_by_source, u.username = k ∧ u.email = "") := by
  constructor
  · intro u hu
    obtain ⟨-, hbuild⟩ := (mem_merge_iff raw_by_source u).mp hu
    conv_lhs => rw [hbuild]
    show (match ((recordsOf raw_by_source).filter
        (fun r => lower r.username == u.username)).find? (fun r => !(isBlank r.email)) with
      | some r => r.email
      | none => "") =
      (match (recordsOf raw_by_source).find?
          (fun r => lower r.username == u.username && !(isBlank r.email)) with
        | some r => r.email
        | none => "")
    rw [find?_filter_fuse]
  · intro k ⟨r, hr, hrk⟩ hall
    refine ⟨buildUser k ((recordsOf raw_by_source).filter (fun r => lower r.username == k)), ?_, rfl, ?_⟩
    · rw [mem_merge_iff]
      exact ⟨⟨r, hr, hrk⟩, rfl⟩
    · show (match ((recordsOf raw_by_source).filter
          (fun r => lower r.username == k)).find? (fun r => !(isBlank r.email)) with
        | some r => r.email
        | none => "") = ""
      rw [find?_filter_fuse]
      have hnone : (recordsOf raw_by_source).find?
          (fun r => (lower r.username == k) && !(isBlank r.email)) = none := by
        rw [List.find?_eq_none]
        intro x hx
        simp only [Bool.and_eq_true, beq_iff_eq, Bool.not_eq_true', not_and]
        intro hxk
        simp [hall x hx hxk]
      rw [hnone]

/-- Closed witness for C5 at a concrete input (a key appearing only with
blank emails is still unified, with empty email). -/
theorem merge_email_first_nonblank_witness :
    ∃ u ∈ merge [("plex", [⟨"plex", "plex", "Carol", " ", "3"⟩])],
      u.username = "carol" ∧ u.email = "" :=
  (merge_email_first_nonblank [("plex", [⟨"plex", "plex", "Carol", " ", "3"⟩])]).2
    "carol" (by decide) (by decide)

/-- Membership in the target directory after a plan is applied. -/
theorem mem_applyPlan_iff (target : List TargetAccount) (p : SyncPlan)
    (a : TargetAccount) :
    a ∈ applyPlan target p ↔
      (a ∈ target ∨ a ∈ p.to_create.map createdAccount) ∧ a ∉ p.to_delete := by
  unfold applyPlan
  simp [List.mem_filter, List.mem_append, List.contains, List.elem_iff]
  tauto

/-- Re-planning against the applied target produces nothing to create
and nothing to delete. -/
theorem plan_rerun_empty (unified : List UnifiedUser)
    (target : List TargetAccount) (policy : PolicyStore)
    (source_failures : List SourceFailure) (remove_missing : Bool) :
    (plan unified
        (applyPlan target (plan unified target policy source_failures remove_missing))
        policy source_failures remove_missing).to_create = [] ∧
    (plan unified
        (applyPlan target (plan unified target policy source_failures remove_missing))
        policy source_failures remove_missing).to_delete = [] := by
  set p1 := plan unified target policy source_failures remove_missing with hp1
  constructor
  · rw [List.eq_nil_iff_forall_not_mem]
    intro u hu
    rw [mem_to_create_iff] at hu
    obtain ⟨humem, habs2, hnb⟩ := hu
    have hkey : lower u.username ∈ unified.map (fun v => lower v.username) :=
      List.mem_map.mpr ⟨u, humem, rfl⟩
    apply habs2
    by_cases hk : lower u.username ∈ target.map (fun a => lower a.username)
    · obtain ⟨a, ha, hak⟩ := List.mem_map.mp hk
      refine List.mem_map.mpr ⟨a, ?_, hak⟩
      rw [mem_applyPlan_iff]
      refine ⟨Or.inl ha, fun hdel => ?_⟩
      rw [hp1, mem_to_delete_iff] at hdel
      exact hdel.2.2.2.1 (hak ▸ hkey)
    · have hcr : u ∈ p1.to_create := by
        rw [hp1, mem_to_create_iff]
        exact ⟨humem, hk, hnb⟩
      refine List.mem_map.mpr ⟨createdAccount u, ?_, rfl⟩
      rw [mem_applyPlan_iff]
      refine ⟨Or.inr (List.mem_map.mpr ⟨u, hcr, rfl⟩), fun hdel => ?_⟩
      rw [hp1, mem_to_delete_iff] at hdel
      exact hdel.2.2.2.1 hkey
  · rw [List.eq_nil_iff_forall_not_mem]
    intro a ha
    rw [mem_to_delete_iff] at ha
    obtain ⟨hrm, hfs, hmem2, habs, himm⟩ := ha
    rw [mem_applyPlan_iff] at hmem2
    obtain ⟨hin, hnotdel⟩ := hmem2
    rcases hin with hin | hin
    · apply hnotdel
      rw [hp1, mem_to_delete_iff]
      exact ⟨hrm, hfs, hin, habs, himm⟩
    · obtain ⟨u, hucr, hua⟩ := List.mem_map.mp hin
      rw [hp1, mem_to_create_iff] at hucr
      apply habs
      refine List.mem_map.mpr ⟨u, hucr.1, ?_⟩
      rw [← hua]
      rfl

/-- C6: a pass applied to the target directory and then re-run with the
same sources and the resulting target directory plans nothing further:
the second SyncPlan has empty `to_create` and empty `to_delete`. -/
theorem run_pass_idempotent (env : PassEnv) (policy : PolicyStore)
    (remove_missing : Bool) (target : List TargetAccount)
    (res res2 : PassResult)
    (hlist : env.target_listing = Except.ok target)
    (hrun : run_pass env policy remove_missing = Except.ok res)
    (hrun2 : run_pass
        { sources := env.sources,
          target_listing := Except.ok (applyPlan target res.syncPlan) }
        policy remove_missing = Except.ok res2) :
    res2.syncPlan.to_create = [] ∧ res2.syncPlan.to_delete = [] := by
  simp only [run_pass, hlist] at hrun
  have hres := Except.ok.inj hrun
  simp only [run_pass] at hrun2
  have hres2 := Except.ok.inj hrun2
  rw [← hres2, ← hres]
  exact plan_rerun_empty (merge (okSources env.sources)) target policy
    (failuresOf env.sources) remove_missing

/-- Concrete environment for the C6 witness: one healthy source
reporting alice, a target directory holding only bob. -/
def wSources : List (String × Except String (List RawSourceUser)) :=
  [("plex", Except.ok [⟨"plex", "plex", "Alice", "", "1"⟩])]

/-- Concrete target directory for the C6 witness. -/
def wTarget : List TargetAccount := [⟨"bob", "2"⟩]

/-- The first pass's result in the C6 witness environment. -/
def wRes : PassResult :=
  { syncPlan := plan (merge (okSources wSources)) wTarget [] (failuresOf wSources) true
    mutations :=
      (plan (merge (okSources wSources)) wTarget [] (failuresOf wSources) true).to_create.map Mutation.create ++
        (plan (merge (okSources wSources)) wTarget [] (failuresOf wSources) true).to_delete.map Mutation.delete
    source_failures := failuresOf wSources }

/-- The second pass's result in the C6 witness environment. -/
def wRes2 : PassResult :=
  { syncPlan := plan (merge (okSources wSources)) (applyPlan wTarget wRes.syncPlan)
      [] (failuresOf wSources) true
    mutations :=
      (plan (merge (okSources wSources)) (applyPlan wTarget wRes.syncPlan) [] (failuresOf wSources) true).to_create.map Mutation.create ++
        (plan (merge (okSources wSources)) (applyPlan wTarget wRes.syncPlan) [] (failuresOf wSources) true).to_delete.map Mutation.delete
    source_failures := failuresOf wSources }

/-- Closed witness for C6 at a concrete input. -/
theorem run_pass_idempotent_witness :
    wRes2.syncPlan.to_create = [] ∧ wRes2.syncPlan.to_delete = [] :=
  run_pass_idempotent { sources := wSources, target_listing := Except.ok wTarget }
    [] true wTarget wRes wRes2 rfl rfl rfl

/-- C7: when the target directory listing fails, `run_pass` aborts,
reports the error to the caller, and dispatches no create or delete
mutation. -/
theorem run_pass_target_error_aborts (env : PassEnv) (policy : PolicyStore)
    (remove_missing : Bool) (e : String)
    (h : env.target_listing = Except.error e) :
    run_pass env policy remove_missing = Except.error e ∧
      mutationsOf (run_pass env policy remove_missing) = [] := by
  constructor
  · simp only [run_pass, h]
  · simp only [run_pass, h, mutationsOf]

/-- Closed witness for C7 at a concrete input. -/
theorem run_pass_target_error_aborts_witness :
    run_pass { sources := wSources, target_listing := Except.error "listing failed" } [] true =
        Except.error "listing failed" ∧
      mutationsOf (run_pass { sources := wSources, target_listing := Except.error "listing failed" } [] true) = [] :=
  run_pass_target_error_aborts
    { sources := wSources, target_listing := Except.error "listing failed" } [] true
    "listing failed" rfl

end Seerrsync

namespace Seerrsync

/-- Embeds the Dashboard component state of `frontend` source
(part_003): the flags and data the Sync Users button and `handleSync`
read and write.  `seerr_url` is `seerr?.url`, with `none` when no Seerr
instance object is loaded and the empty string a possible stored url. -/
structure DashboardState where
  syncing : Bool
  refreshing : Bool
  seerr_url : Option String
  syncMessage : Option String
  error : Option String
  deriving DecidableEq, Repr

/-- Embeds the Sync Users button guard of part_003:
`disabled=syncing or not seerr?.url or refreshing` (JS truthiness: a
missing object or empty url string counts as absent). -/
def syncButtonDisabled (s : DashboardState) : Bool :=
  s.syncing ||
    (match s.seerr_url with
     | some url => url == ""
     | none => true) ||
    s.refreshing

/-- A click on the Sync Users button dispatches `triggerSync` exactly
when the button is not disabled. -/
def clickSyncDispatches (s : DashboardState) : Bool := !(syncButtonDisabled s)

/-- Outcome of the awaited `triggerSync` request (with the follow-up
`loadData` folded into resolution). -/
inductive SyncRequestOutcome where
  | resolved (message : Option String)
  | rejected (detail : Option String)
  deriving DecidableEq, Repr

/-- Embeds `handleSync` of part_003: sets `syncing` and clears the
message and error, then the try branch stores the response message and
the catch branch the error detail; the finally clause resets
`syncing` in both cases. -/
def handleSync (outcome : SyncRequestOutcome) (s : DashboardState) : DashboardState :=
  let started := { s with syncing := true, syncMessage := none, error := none }
  let finished :=
    match outcome with
    | .resolved m =>
        { started with syncMessage := some (m.getD "Sync completed successfully") }
    | .rejected d =>
        { started with error := some (d.getD "Failed to sync users") }
  { finished with syncing := false }

/-- C8: while a dashboard-triggered sync is in flight the Sync Users
button is disabled, so no second concurrent `triggerSync` can be
dispatched; and `handleSync` leaves `syncing` false whether the request
resolves or rejects. -/
theorem dashboard_sync_guard :
    (∀ s : DashboardState, s.syncing = true →
      syncButtonDisabled s = true ∧ clickSyncDispatches s = false) ∧
    (∀ (o : SyncRequestOutcome) (s : DashboardState),
      (handleSync o s).syncing = false) := by
  constructor
  · intro s hs
    constructor
    · simp [syncButtonDisabled, hs]
    · simp [clickSyncDispatches, syncButtonDisabled, hs]
  · intro o s
    cases o <;> rfl

/-- Closed witness for C8 at a concrete state. -/
theorem dashboard_sync_guard_witness :
    syncButtonDisabled ⟨true, false, some "https://seerr", none, none⟩ = true ∧
      clickSyncDispatches ⟨true, false, some "https://seerr", none, none⟩ = false :=
  dashboard_sync_guard.1 ⟨true, false, some "https://seerr", none, none⟩ rfl

/-- Embeds the permission option bitmask values of the AddUserModal
permission editor (part_003). -/
def permissionOptionValues : List Nat :=
  [1, 2, 4, 8, 16, 32, 64, 128, 256, 512, 1024]

/-- Embeds `togglePermission` of part_003:
`newPermissions = formData.permissions XOR value` (inputs stay far
below 2^31, where the JS 32-bit operator agrees with Nat xor). -/
def togglePermission (permissions v : Nat) : Nat := permissions ^^^ v

/-- Embeds `hasPermission` of part_003:
`(formData.permissions AND value) strictly different from 0`. -/
def hasPermission (permissions v : Nat) : Bool := (permissions &&& v) != 0

theorem hasPermission_two_pow (p k : Nat) :
    hasPermission p (2 ^ k) = p.testBit k := by
  unfold hasPermission
  rw [Nat.and_two_pow]
  have hpow : (2 : Nat) ^ k ≠ 0 := Nat.pos_iff_ne_zero.mp (Nat.pos_pow_of_pos k (by norm_num))
  cases h : p.testBit k <;> simp [h, hpow]

theorem toggle_flips_two_pow (p k : Nat) :
    hasPermission (togglePermission p (2 ^ k)) (2 ^ k) =
      !(hasPermission p (2 ^ k)) := by
  rw [hasPermission_two_pow, hasPermission_two_pow]
  unfold togglePermission
  simp [Nat.testBit_xor]

/-- C9: for every bitmask and every permission option value, toggling
twice restores the original bitmask, and one toggle negates
`hasPermission` for that value. -/
theorem togglePermission_involution_and_flip (p : Nat) :
    ∀ v ∈ permissionOptionValues,
      togglePermission (togglePermission p v) v = p ∧
        hasPermission (togglePermission p v) v = !(hasPermission p v) := by
  intro v hv
  refine ⟨Nat.xor_cancel_right v p, ?_⟩
  fin_cases hv
  · exact toggle_flips_two_pow p 0
  · exact toggle_flips_two_pow p 1
  · exact toggle_flips_two_pow p 2
  · exact toggle_flips_two_pow p 3
  · exact toggle_flips_two_pow p 4
  · exact toggle_flips_two_pow p 5
  · exact toggle_flips_two_pow p 6
  · exact toggle_flips_two_pow p 7
  · exact toggle_flips_two_pow p 8
  · exact toggle_flips_two_pow p 9
  · exact toggle_flips_two_pow p 10

/-- Closed witness for C9 at a concrete bitmask and option value. -/
theorem togglePermission_involution_and_flip_witness :
    togglePermission (togglePermission 5 4) 4 = 5 ∧
      hasPermission (togglePermission 5 4) 4 = !(hasPermission 5 4) :=
  togglePermission_involution_and_flip 5 4 (by decide)

end Seerrsync

namespace Seerrsync

/-- Embeds `CACHE_PREFIX` of the frontend api.js cache layer. -/
def cachePfx : String := "seerrsync_cache_"

/-- sessionStorage modelled as an ordered association list of key/value
pairs. -/
abbrev Storage := List (String × String)

/-- Embeds `sessionStorage.getItem`: the stored string for a key, if
present. -/
def getItem (st : Storage) (k : String) : Option String :=
  (st.find? (fun kv => kv.1 == k)).map (fun kv => kv.2)

/-- Embeds a successful `sessionStorage.setItem`: replaces the existing
entry for the key or appends a new one. -/
def setItemOk : Storage → String → String → Storage
  | [], k, v => [(k, v)]
  | kv :: rest, k, v =>
      if kv.1 == k then (k, v) :: rest else kv :: setItemOk rest k v

/-- Embeds `k.startsWith(CACHE_PREFIX)` of api.js. -/
def startsWithCachePfx (s : String) : Bool := cachePfx.data.isPrefixOf s.data

/-- Embeds `getCached` of api.js: reads the prefixed key; a missing or
falsy entry yields null, and `JSON.parse` throwing (modelled by
`parseJson` returning `none`) is caught and yields null. -/
def getCached {J : Type} (parseJson : String → Option J) (st : Storage)
    (key : String) : Option J :=
  match getItem st (cachePfx ++ key) with
  | some raw => if raw == "" then none else parseJson raw
  | none => none

/-- Which of the two `setItem` attempts inside `setCache` throw
(storage full); models the exceptions of the underlying storage. -/
structure WriteAttemptFailures where
  firstFails : Bool
  secondFails : Bool
  deriving DecidableEq, Repr

/-- Embeds the recovery loop of `setCache`: removes every key that
starts with the cache marker except the key being written. -/
def clearOtherCacheEntries (st : Storage) (key : String) : Storage :=
  st.filter (fun kv => !(startsWithCachePfx kv.1 && kv.1 != cachePfx ++ key))

/-- Embeds `setCache` of api.js: try the write; on failure clear the
other cache entries and retry exactly once, swallowing a second
failure. -/
def setCache (wf : WriteAttemptFailures) (st : Storage) (key payload : String) :
    Storage :=
  if wf.firstFails then
    let cleared := clearOtherCacheEntries st key
    if wf.secondFails then cleared
    else setItemOk cleared (cachePfx ++ key) payload
  else setItemOk st (cachePfx ++ key) payload

theorem getItem_setItemOk_self (st : Storage) (k v : String) :
    getItem (setItemOk st k v) k = some v := by
  induction st with
  | nil => simp [setItemOk, getItem, List.find?]
  | cons kv rest ih =>
    by_cases h : kv.1 == k
    · simp [setItemOk, h, getItem, List.find?]
    · simp only [setItemOk, h, if_false, Bool.false_eq_true]
      simpa [getItem, List.find?_cons, h] using ih

theorem getItem_setItemOk_other (st : Storage) (k v k' : String)
    (h : k' ≠ k) :
    getItem (setItemOk st k v) k' = getItem st k' := by
  have hne : (k == k') = false := by simp [Ne.symm h]
  induction st with
  | nil => simp [setItemOk, getItem, List.find?, hne]
  | cons kv rest ih =>
    by_cases hk : kv.1 == k
    · have hkv : kv.1 = k := by simpa using hk
      simp [setItemOk, hk, getItem, List.find?_cons, hkv, Ne.symm h]
    · by_cases hk' : kv.1 == k'
      · simp [setItemOk, hk, getItem, List.find?_cons, hk']
      · simp only [setItemOk, hk, if_false, Bool.false_eq_true]
        simpa [getItem, List.find?_cons, hk, hk'] using ih

/-- Filtering with a predicate on keys commutes with lookup. -/
theorem getItem_filter_key (st : Storage) (f : String → Bool) (k : String) :
    getItem (st.filter (fun kv => f kv.1)) k =
      if f k then getItem st k else none := by
  induction st with
  | nil => simp [getItem, List.find?]
  | cons kv rest ih =>
    by_cases hf : f kv.1
    · by_cases hk : kv.1 == k
      · have hkv : kv.1 = k := by simpa using hk
        simp [List.filter_cons, hf, getItem, List.find?_cons, hk, hkv ▸ hf]
      · simpa [List.filter_cons, hf, getItem, List.find?_cons, hk] using ih
    · by_cases hk : kv.1 == k
      · have hkv : kv.1 = k := by simpa using hk
        simpa [List.filter_cons, hf, hkv ▸ hf] using ih
      · simpa [List.filter_cons, hf, getItem, List.find?_cons, hk] using ih

theorem startsWithCachePfx_append (key : String) :
    startsWithCachePfx (cachePfx ++ key) = true := by
  unfold startsWithCachePfx
  rw [List.isPrefixOf_iff_prefix]
  show cachePfx.data <+: (cachePfx ++ key).data
  rw [String.data_append]
  exact List.prefix_append _ _

/-- C10: the cache layer never propagates an exception — `getCached`
answers null on a missing entry and on an unparseable entry, and
`setCache` touches no key outside the cache marker, retries the write
exactly once after clearing the other cache entries, stores the payload
unless both attempts fail, and on a double failure swallows the error
leaving exactly the cleared storage (the written key's old entry
included). -/
theorem cache_layer_never_throws {J : Type} (parseJson : String → Option J)
    (st : Storage) (key payload k' : String) (wf : WriteAttemptFailures) :
    (getItem st (cachePfx ++ key) = none → getCached parseJson st key = none) ∧
    (∀ raw, getItem st (cachePfx ++ key) = some raw → parseJson raw = none →
      getCached parseJson st key = none) ∧
    (startsWithCachePfx k' = false →
      getItem (setCache wf st key payload) k' = getItem st k') ∧
    (¬ (wf.firstFails = true ∧ wf.secondFails = true) →
      getItem (setCache wf st key payload) (cachePfx ++ key) = some payload) ∧
    (setCache ⟨true, true⟩ st key payload = clearOtherCacheEntries st key) ∧
    (getItem (clearOtherCacheEntries st key) (cachePfx ++ key) =
      getItem st (cachePfx ++ key)) := by
  have hcleared : ∀ k'', getItem (clearOtherCacheEntries st key) k'' =
      if !(startsWithCachePfx k'' && k'' != cachePfx ++ key) then getItem st k'' else none := by
    intro k''
    unfold clearOtherCacheEntries
    exact getItem_filter_key st (fun s => !(startsWithCachePfx s && s != cachePfx ++ key)) k''
  refine ⟨?_, ?_, ?_, ?_, rfl, ?_⟩
  · intro h
    unfold getCached
    rw [h]
  · intro raw hraw hparse
    unfold getCached
    rw [hraw]
    by_cases hblank : raw == ""
    · simp [hblank]
    · simp [hblank, hparse]
  · intro hpfx
    have hne : k' ≠ cachePfx ++ key := by
      intro heq
      rw [heq, startsWithCachePfx_append] at hpfx
      cases hpfx
    unfold setCache
    cases hf : wf.firstFails
    · simp only [Bool.false_eq_true, if_false]
      exact getItem_setItemOk_other st _ payload k' hne
    · cases hs : wf.secondFails
      · simp only [if_true, Bool.false_eq_true, if_false]
        rw [getItem_setItemOk_other _ _ payload k' hne, hcleared k', hpfx]
        simp
      · simp only [if_true]
        rw [hcleared k', hpfx]
        simp
  · intro hboth
    unfold setCache
    cases hf : wf.firstFails
    · simp only [Bool.false_eq_true, if_false]
      exact getItem_setItemOk_self st _ payload
    · cases hs : wf.secondFails
      · simp only [if_true, Bool.false_eq_true, if_false]
        exact getItem_setItemOk_self _ _ payload
      · exact absurd ⟨hf, hs⟩ hboth
  · rw [hcleared]
    simp [startsWithCachePfx_append]

/-- Closed witness for C10 at concrete inputs. -/
theorem cache_layer_never_throws_witness :
    getCached (fun s => if s == "42" then some (42 : Nat) else none) [] "seerr" = none ∧
      getItem (setCache ⟨false, false⟩ [("authToken", "tok")] "seerr" "v") "authToken" =
        getItem [("authToken", "tok")] "authToken" :=
  ⟨(cache_layer_never_throws (fun s => if s == "42" then some (42 : Nat) else none)
      [] "seerr" "v" "authToken" ⟨false, false⟩).1 rfl,
    (cache_layer_never_throws (fun s => if s == "42" then some (42 : Nat) else none)
      [("authToken", "tok")] "seerr" "v" "authToken" ⟨false, false⟩).2.2.1 (by decide)⟩

end Seerrsync
